import Mathlib

set_option maxRecDepth 10000

/-!
Verification of the ESPHome native-API client library.

The development shallowly embeds the protocol and connection layers of the
library (`src/utils/protocol.ts`, `src/connection/connection.ts`,
`src/client/client.ts`) together with the varint codec of the npm `varint`
package that `protocol.ts` uses.  Buffers are `List Nat` of byte values,
thrown exceptions are `Except.error`, and event emission is modelled by
returning the list of emitted events.
-/

namespace ESPHome

/-- Continuation bit of a varint byte (`MSB = 0x80` in the npm `varint`
package). -/
def MSB : Nat := 128

/-- Low seven bits mask (`REST = 0x7f` in the npm `varint` package). -/
def REST : Nat := 127

/-- `varint.encode` of the npm `varint` package for values below `2^31`
(the only range this protocol feeds it: payload lengths are capped at
1 MiB and message type identifiers are below 128).  The source loop is
`while (num & ~0x7F) { out.push((num & 0xFF) | 0x80); num >>>= 7 };
out.push(num)`. -/
def varintEncode (n : Nat) : List Nat :=
  if n < 128 then [n]
  else ((n &&& 255) ||| 128) :: varintEncode (n >>> 7)
termination_by n
decreasing_by
  simp only [Nat.shiftRight_eq_div_pow]
  exact Nat.div_lt_self (by omega) (by norm_num)

/-- The read loop of `varint.decode`: accumulate `res` over bytes from the
head of the list; `none` models the thrown `RangeError` (out of bytes, or
`shift > 49`).  Returns the decoded value and the total byte counter. -/
def varintDecodeAux : List Nat → Nat → Nat → Nat → Option (Nat × Nat)
  | [], _, _, _ => none
  | b :: bs, shift, res, counter =>
    if 49 < shift then none
    else if MSB ≤ b then
      varintDecodeAux bs (shift + 7) (res + (b &&& REST) * 2 ^ shift) (counter + 1)
    else some (res + (b &&& REST) * 2 ^ shift, counter + 1)

/-- `varint.decode(buffer, offset)`: decode an unsigned varint starting at
byte `offset`.  `none` models the thrown `RangeError`; on success the second
component is `varint.decode.bytes`, the number of bytes consumed. -/
def varintDecode (buf : List Nat) (offset : Nat) : Option (Nat × Nat) :=
  varintDecodeAux (buf.drop offset) 0 0 0

/-- `ProtocolHandler.MAX_MESSAGE_SIZE = 1024 * 1024`. -/
def MAX_MESSAGE_SIZE : Nat := 1024 * 1024

/-- A decoded frame, as in `DecodedMessage` of `src/utils/protocol.ts`. -/
structure DecodedMessage where
  type : Nat
  data : List Nat
deriving DecidableEq, Repr

/-- `ProtocolHandler.encodeMessage`: frame = preamble `0x00`, varint payload
length, varint message type, payload. -/
def encodeMessage (type : Nat) (data : List Nat) : List Nat :=
  0 :: (varintEncode data.length ++ (varintEncode type ++ data))

/-- The part of `ProtocolHandler.tryDecodeMessage` that runs once the head
of the buffer is a `0x00` preamble: decode the length varint at offset 1,
reject lengths above the cap, decode the type varint, and extract the
payload when enough bytes are buffered.  `.error` is the thrown
`ProtocolError`; `.ok (none, b)` is the JS `return null` with buffer `b`;
`.ok (some m, b)` returns message `m` leaving buffer `b`. -/
def decodeFromPreamble (buffer : List Nat) :
    Except String (Option DecodedMessage × List Nat) :=
  match varintDecode buffer 1 with
  | none => .ok (none, buffer)
  | some (lengthValue, lengthBytes) =>
    if MAX_MESSAGE_SIZE < lengthValue then
      .error ("Message too large: " ++ (toString lengthValue) ++ " bytes")
    else
      -- typeOffset = 1 + lengthBytes
      if buffer.length ≤ 1 + lengthBytes then .ok (none, buffer)
      else
        match varintDecode buffer (1 + lengthBytes) with
        | none => .ok (none, buffer)
        | some (typeValue, typeBytes) =>
          -- dataOffset = typeOffset + typeBytes; totalSize = dataOffset + lengthValue
          if buffer.length < 1 + lengthBytes + typeBytes + lengthValue then
            .ok (none, buffer)
          else
            .ok (some ⟨typeValue,
                   (buffer.drop (1 + lengthBytes + typeBytes)).take lengthValue⟩,
                 buffer.drop (1 + lengthBytes + typeBytes + lengthValue))

/-- `ProtocolHandler.tryDecodeMessage` on a given buffer.  Fewer than two
bytes: wait.  Head byte not `0x00`: skip forward to the next `0x00`
(clearing the whole buffer when none exists), then decode from the
preamble. -/
def tryDecodeMessage (buffer : List Nat) :
    Except String (Option DecodedMessage × List Nat) :=
  if buffer.length < 2 then .ok (none, buffer)
  else if buffer.headD 0 = 0 then decodeFromPreamble buffer
  else if buffer.contains 0 then decodeFromPreamble (buffer.drop (buffer.indexOf 0))
  else .ok (none, [])

/-- The decode loop inside `ProtocolHandler.addData`: while the buffer is
nonempty, extract messages from its head; stop on an incomplete message;
a thrown `ProtocolError` escapes the loop (dropping the messages already
collected, as in the source where the exception propagates to the
caller). -/
def addDataGo (buffer : List Nat) :
    Except String (List DecodedMessage × List Nat) :=
  if _h : buffer.length = 0 then .ok ([], buffer)
  else
    match htd : tryDecodeMessage buffer with
    | .error e => .error e
    | .ok (none, buf') => .ok ([], buf')
    | .ok (some m, buf') =>
      match addDataGo buf' with
      | .error e => .error e
      | .ok (ms, bfin) => .ok (m :: ms, bfin)
termination_by buffer.length
decreasing_by
  -- a successfully decoded message always shrinks the buffer
  have h := htd
  rw [tryDecodeMessage] at h
  split at h
  · simp at h
  case _ hlen =>
    have hdp : ∀ B : List Nat, decodeFromPreamble B = .ok (some m, buf') →
        ∃ t, 0 < t ∧ t ≤ B.length ∧ buf' = B.drop t := by
      intro B hB
      rw [decodeFromPreamble] at hB
      split at hB
      · simp at hB
      case _ lengthValue lengthBytes _ =>
        split at hB
        · simp at hB
        · split at hB
          · simp at hB
          · split at hB
            · simp at hB
            case _ typeValue typeBytes _ =>
              split at hB
              · simp at hB
              case _ hlen2 =>
                simp only [Except.ok.injEq, Prod.mk.injEq,
                  Option.some.injEq] at hB
                refine ⟨1 + lengthBytes + typeBytes + lengthValue,
                  by omega, by omega, ?_⟩
                exact hB.2.symm
    split at h
    · obtain ⟨t, ht0, htl, hb⟩ := hdp _ h
      subst hb
      simp only [List.length_drop]
      omega
    · split at h
      · obtain ⟨t, ht0, htl, hb⟩ := hdp _ h
        subst hb
        simp only [List.length_drop] at *
        omega
      · simp at h

/-- `ProtocolHandler.addData`: concatenate the chunk onto the internal
buffer, then decode as many complete messages as possible.  Returns the
decoded messages and the new internal buffer. -/
def addData (buffer data : List Nat) :
    Except String (List DecodedMessage × List Nat) :=
  addDataGo (buffer ++ data)

/-- Concatenation of the encodings of a list of frames. -/
def encodeFrames : List DecodedMessage → List Nat
  | [] => []
  | m :: ms => encodeMessage m.type m.data ++ encodeFrames ms

/-- A frame the protocol can carry: type identifier in the 31-bit range the
JS varint encoder handles, payload within the 1 MiB cap. -/
def ValidMsg (m : DecodedMessage) : Prop :=
  m.type < 2 ^ 31 ∧ m.data.length ≤ MAX_MESSAGE_SIZE

instance (m : DecodedMessage) : Decidable (ValidMsg m) := by
  unfold ValidMsg; infer_instance


/-- Feed a sequence of chunks to one `ProtocolHandler` (one `addData` call
per chunk, starting from buffer `buffer`), collecting all decoded messages
in order; a thrown `ProtocolError` aborts the sequence. -/
def feedChunks (buffer : List Nat) :
    List (List Nat) → Except String (List DecodedMessage × List Nat)
  | [] => .ok ([], buffer)
  | c :: cs =>
    match addData buffer c with
    | .error e => .error e
    | .ok (ms, b') =>
      match feedChunks b' cs with
      | .error e => .error e
      | .ok (ms', b'') => .ok (ms ++ ms', b'')

/-- Concatenation of a chunk list. -/
def flattenChunks : List (List Nat) → List Nat
  | [] => []
  | c :: cs => c ++ flattenChunks cs


/-! ### Connection layer (`src/connection/connection.ts`) -/

/-- `ConnectionState` of `src/types/index.ts`. -/
@[ext]
structure ConnectionState where
  connected : Bool
  authenticated : Bool
  apiVersion : Option (Nat × Nat)
  serverInfo : Option String
deriving DecidableEq, Repr

/-- A `Partial<ConnectionState>` as passed to `Connection.updateState`. -/
structure StatePatch where
  connected : Option Bool := none
  authenticated : Option Bool := none
  apiVersion : Option (Nat × Nat) := none
  serverInfo : Option String := none
deriving DecidableEq, Repr

/-- `{ ...this.state, ...newState }`: fields present in the patch replace
the old values; no caller ever deletes a field or stores `undefined`, so
the merged object keeps the old key order plus any newly appended keys, and
the source's `JSON.stringify` comparison coincides with structural
equality of this record. -/
def applyPatch (s : ConnectionState) (p : StatePatch) : ConnectionState where
  connected := p.connected.getD s.connected
  authenticated := p.authenticated.getD s.authenticated
  apiVersion := match p.apiVersion with
    | some v => some v
    | none => s.apiVersion
  serverInfo := match p.serverInfo with
    | some v => some v
    | none => s.serverInfo

/-- Events a `Connection` emits (`ConnectionEvents`). -/
inductive Event where
  | connectEv : Event
  | disconnectEv : Event
  | messageEv : DecodedMessage → Event
  | errorEv : String → Event
  | stateChangeEv : ConnectionState → Event
deriving DecidableEq, Repr

/-- `Connection.updateState`: merge the patch and emit `stateChange`
exactly when `JSON.stringify` of old and new state differ, i.e. when the
states differ structurally. -/
def updateState (s : ConnectionState) (p : StatePatch) :
    ConnectionState × List Event :=
  (applyPatch s p,
   if applyPatch s p = s then [] else [Event.stateChangeEv (applyPatch s p)])

/-- The mutable fields of a `Connection` that the verified operations
touch.  Timer handles are deliberately not modelled: no claim below
concerns them. -/
structure Conn where
  state : ConnectionState
  buffer : List Nat          -- the ProtocolHandler accumulation buffer
  socketOpen : Bool          -- whether `this.socket` is non-null
  expectedDisconnect : Bool
  hasDeepSleep : Bool
  reconnectOpt : Bool        -- `this.options.reconnect` (mutated on deep sleep)
deriving DecidableEq, Repr

/-- The `MessageType` identifiers the connection handles structurally. -/
def DisconnectRequestType : Nat := 5

def DisconnectResponseType : Nat := 6

def PingRequestType : Nat := 7

def PingResponseType : Nat := 8

def SubscribeStatesRequestType : Nat := 20

def SwitchCommandRequestType : Nat := 33

/-- `Connection.cleanup`: stop timers (unmodelled), destroy the socket,
and clear the protocol buffer. -/
def cleanup (c : Conn) : Conn :=
  { c with socketOpen := false, buffer := [] }

/-- `Connection.disconnect()`: cleanup, set
`{connected: false, authenticated: false}`, always emit `disconnect`, then
reset the `expectedDisconnect` flag. -/
def disconnect (c : Conn) : Conn × List Event :=
  let c1 := cleanup c
  let r := updateState c1.state ⟨some false, some false, none, none⟩
  ({ c1 with state := r.1, expectedDisconnect := false },
   r.2 ++ [Event.disconnectEv])

/-- `Connection.handleDisconnect` (the socket `close`/`end` path): same
state reset, but `disconnect` is emitted only if the connection was
previously connected.  Reconnect scheduling is timer work and is not
modelled. -/
def handleDisconnect (c : Conn) : Conn × List Event :=
  let c1 := cleanup c
  let r := updateState c1.state ⟨some false, some false, none, none⟩
  ({ c1 with state := r.1 },
   r.2 ++ (if c.state.connected then [Event.disconnectEv] else []))

/-- The socket `connect` handler inside `Connection.establishConnection`:
record the socket, set `{connected: true, authenticated: false}` and emit
`connect`. -/
def onSocketConnect (c : Conn) : Conn × List Event :=
  let c1 := { c with socketOpen := true }
  let r := updateState c1.state ⟨some true, some false, none, none⟩
  ({ c1 with state := r.1 }, r.2 ++ [Event.connectEv])

/-- `Connection.sendMessage`: throws `ConnectionError('Not connected')`
when there is no socket or `state.connected` is false; otherwise frames
the payload and writes it to the socket (the returned byte list). -/
def sendMessage (c : Conn) (type : Nat) (data : List Nat) :
    Except String (List Nat) :=
  if !c.socketOpen || !c.state.connected then .error ("Not connected")
  else .ok (encodeMessage type data)

/-- `Connection.handleDisconnectRequest`: acknowledge with
`DisconnectResponse` (a send failure is caught and ignored), mark the
disconnect as expected, disable auto-reconnect for deep-sleep devices,
then `disconnect()`. -/
def handleDisconnectRequest (c : Conn) : Conn × List Event × List (List Nat) :=
  let writes := match sendMessage c DisconnectResponseType [] with
    | .ok frame => [frame]
    | .error _ => []
  let c1 := { c with expectedDisconnect := true }
  let c2 := if c1.hasDeepSleep then { c1 with reconnectOpt := false } else c1
  let r := disconnect c2
  (r.1, r.2, writes)

/-- `Connection.handleMessage`: answer `PingRequest` with `PingResponse`
(this send is not wrapped in a `try`, so its failure propagates), consume
`PingResponse` (timer bookkeeping only), divert `DisconnectRequest`, and
emit every other message on the `message` channel. -/
def handleMessage (c : Conn) (m : DecodedMessage) :
    Except String (Conn × List Event × List (List Nat)) :=
  if m.type = PingRequestType then
    match sendMessage c PingResponseType [] with
    | .error e => .error e
    | .ok frame => .ok (c, [], [frame])
  else if m.type = PingResponseType then
    .ok (c, [], [])
  else if m.type = DisconnectRequestType then
    .ok (handleDisconnectRequest c)
  else
    .ok (c, [Event.messageEv m], [])

/-- The loop over decoded messages in the socket `data` handler.  An
exception from `handleMessage` aborts the loop, carrying the events and
writes already produced. -/
def processMessages (c : Conn) (evs : List Event) (ws : List (List Nat)) :
    List DecodedMessage →
      Except (String × Conn × List Event × List (List Nat))
        (Conn × List Event × List (List Nat))
  | [] => .ok (c, evs, ws)
  | m :: ms =>
    match handleMessage c m with
    | .error e => .error (e, c, evs, ws)
    | .ok (c', evs', ws') => processMessages c' (evs ++ evs') (ws ++ ws') ms

/-- The socket `data` handler installed by `Connection.setupSocketHandlers`:
run `addData` on the chunk and dispatch each decoded message; a thrown
`ProtocolError` is caught, re-emitted on the `error` channel, and followed
by `disconnect()`. -/
def onData (c : Conn) (data : List Nat) : Conn × List Event × List (List Nat) :=
  match addData c.buffer data with
  | .error e =>
    let r := disconnect c
    (r.1, Event.errorEv e :: r.2, [])
  | .ok (msgs, buf') =>
    match processMessages { c with buffer := buf' } [] [] msgs with
    | .ok (c', evs, ws) => (c', evs, ws)
    | .error (e, c', evs, ws) =>
      let r := disconnect c'
      (r.1, evs ++ (Event.errorEv e :: r.2), ws)

/-- `Connection.setAuthenticated`. -/
def setAuthenticated (c : Conn) (authenticated : Bool) : Conn × List Event :=
  let r := updateState c.state ⟨none, some authenticated, none, none⟩
  ({ c with state := r.1 }, r.2)

/-- `Connection.setApiVersion`. -/
def setApiVersion (c : Conn) (major minor : Nat) : Conn × List Event :=
  let r := updateState c.state ⟨none, none, some (major, minor), none⟩
  ({ c with state := r.1 }, r.2)

/-- `Connection.setServerInfo`. -/
def setServerInfo (c : Conn) (info : String) : Conn × List Event :=
  let r := updateState c.state ⟨none, none, none, some info⟩
  ({ c with state := r.1 }, r.2)

/-- The state-mutating operations of the `Connection`; each routes through
`updateState` with a literal patch from the source. -/
inductive StateOp where
  | socketConnect : StateOp
  | disconnectCall : StateOp
  | setAuth : Bool → StateOp
  | setApi : Nat → Nat → StateOp
  | setServer : String → StateOp

/-- The `Partial<ConnectionState>` literal each operation passes to
`updateState`. -/
def opPatch : StateOp → StatePatch
  | .socketConnect => ⟨some true, some false, none, none⟩
  | .disconnectCall => ⟨some false, some false, none, none⟩
  | .setAuth b => ⟨none, some b, none, none⟩
  | .setApi major minor => ⟨none, none, some (major, minor), none⟩
  | .setServer info => ⟨none, none, none, some info⟩

/-! ### `Connection.connect` retry policy -/

/-- The attempt loop of the `p-retry` dependency, per its documented
contract: `retries` is the number of retried attempts after the first.
`succeeds i` is the outcome of the 0-based `i`-th attempt; the result is
the number of attempts made and whether the call succeeded. -/
def pRetryRun (succeeds : Nat → Bool) : Nat → Nat → Nat × Bool
  | i, 0 => (i + 1, succeeds i)
  | i, r + 1 => if succeeds i then (i + 1, true) else pRetryRun succeeds (i + 1) r

/-- `Connection.connect()` calls `pRetry(establishConnection, { retries:
this.options.reconnect ? 3 : 0, minTimeout: 1000, maxTimeout: 5000 })`. -/
def connectAttempts (reconnect : Bool) (succeeds : Nat → Bool) : Nat × Bool :=
  pRetryRun succeeds 0 (if reconnect then 3 else 0)

/-- Backoff delay before 0-based retry `i`, per the `retry` package used by
`p-retry`: `min(minTimeout * factor^i, maxTimeout)` with the default factor
2 and the configured `minTimeout = 1000`, `maxTimeout = 5000`. -/
def retryDelay (i : Nat) : Nat := min (1000 * 2 ^ i) 5000

/-! ### Client facade (`src/client/client.ts`) -/

/-- The dynamic proto table `require('../proto/api')`: a message-type name
may resolve to an encoder, and the encoder itself may throw (modelled as
`Except`); the payload type is abstract. -/
def ProtoTable (α : Type) : Type :=
  String → Option (α → Except String (List Nat))

/-- `ESPHomeClient.encodeMessage`: a missing message class and a thrown
encoder error both yield an empty buffer; the whole body is wrapped in
`try`/`catch`, so the function is total. -/
def clientEncodeMessage {α : Type} (table : ProtoTable α) (type : String)
    (data : α) : List Nat :=
  match table type with
  | none => []
  | some enc =>
    match enc data with
    | .ok bytes => bytes
    | .error _ => []

/-- `ESPHomeClient.switchCommand`: encode a `SwitchCommandRequest` via the
proto table and send it over the connection. -/
def switchCommand {α : Type} (table : ProtoTable α) (c : Conn)
    (message : α) : Except String (List Nat) :=
  sendMessage c SwitchCommandRequestType
    (clientEncodeMessage table ("SwitchCommandRequest") message)


/-! ### Correctness of the varint codec -/

theorem decodeFromPreamble_some {buffer buf' : List Nat} {m : DecodedMessage}
    (h : decodeFromPreamble buffer = .ok (some m, buf')) :
    ∃ t, 0 < t ∧ t ≤ buffer.length ∧ buf' = buffer.drop t := by
  rw [decodeFromPreamble] at h
  split at h
  · simp at h
  case _ lengthValue lengthBytes _ =>
    split at h
    · simp at h
    · split at h
      · simp at h
      · split at h
        · simp at h
        case _ typeValue typeBytes _ =>
          split at h
          · simp at h
          case _ hlen =>
            simp only [Except.ok.injEq, Prod.mk.injEq, Option.some.injEq] at h
            refine ⟨1 + lengthBytes + typeBytes + lengthValue, by omega, by omega, ?_⟩
            exact h.2.symm

theorem tryDecodeMessage_some_length {buffer buf' : List Nat} {m : DecodedMessage}
    (h : tryDecodeMessage buffer = .ok (some m, buf')) :
    buf'.length < buffer.length := by
  rw [tryDecodeMessage] at h
  split at h
  · simp at h
  case _ hlen =>
    split at h
    · obtain ⟨t, ht0, htl, hb⟩ := decodeFromPreamble_some h
      subst hb
      simp only [List.length_drop]
      omega
    · split at h
      · obtain ⟨t, ht0, htl, hb⟩ := decodeFromPreamble_some h
        subst hb
        simp only [List.length_drop] at *
        omega
      · simp at h



theorem byteOr_facts :
    ∀ m : Fin 256, 128 ≤ ((m : Nat) ||| 128) ∧
      ((m : Nat) ||| 128) &&& 127 = (m : Nat) % 128 := by decide

theorem and255_eq_mod (n : Nat) : n &&& 255 = n % 256 :=
  Nat.and_pow_two_sub_one_eq_mod n 8

theorem encByte_ge (n : Nat) : 128 ≤ ((n &&& 255) ||| 128) := by
  rw [and255_eq_mod]
  exact (byteOr_facts ⟨n % 256, Nat.mod_lt _ (by norm_num)⟩).1

theorem encByte_and (n : Nat) : ((n &&& 255) ||| 128) &&& 127 = n % 128 := by
  have h2 : ((n % 256) ||| 128) &&& 127 = (n % 256) % 128 :=
    (byteOr_facts ⟨n % 256, Nat.mod_lt _ (by norm_num)⟩).2
  rw [and255_eq_mod, h2]
  omega

theorem varintEncode_lt {n : Nat} (h : n < 128) : varintEncode n = [n] := by
  rw [varintEncode]; simp [h]

theorem varintEncode_ge {n : Nat} (h : 128 ≤ n) :
    varintEncode n = ((n &&& 255) ||| 128) :: varintEncode (n >>> 7) := by
  rw [varintEncode]; simp [Nat.not_lt.mpr h]

theorem varintEncode_length_pos (n : Nat) : 0 < (varintEncode n).length := by
  by_cases h : n < 128
  · simp [varintEncode_lt h]
  · rw [varintEncode_ge (Nat.not_lt.mp h)]
    simp

theorem varintEncode_length_le :
    ∀ k n, n < 2 ^ (7 * (k + 1)) → (varintEncode n).length ≤ k + 1 := by
  intro k
  induction k with
  | zero =>
    intro n h
    rw [varintEncode_lt (by norm_num at h; omega)]
    simp
  | succ k ih =>
    intro n h
    by_cases h128 : n < 128
    · simp [varintEncode_lt h128]
    · rw [varintEncode_ge (Nat.not_lt.mp h128)]
      simp only [List.length_cons]
      have hdiv : n >>> 7 < 2 ^ (7 * (k + 1)) := by
        rw [Nat.shiftRight_eq_div_pow]
        apply Nat.div_lt_of_lt_mul
        calc n < 2 ^ (7 * (k + 2)) := h
          _ = 2 ^ 7 * 2 ^ (7 * (k + 1)) := by
              rw [← pow_add]; congr 1; ring
      exact Nat.succ_le_succ (ih _ hdiv)

theorem varintDecodeAux_cont {l : List Nat} (h : ∀ b ∈ l, 128 ≤ b) :
    ∀ shift res counter, varintDecodeAux l shift res counter = none := by
  induction l with
  | nil => intro _ _ _; rfl
  | cons b bs ih =>
    intro shift res counter
    rw [varintDecodeAux]
    simp only [MSB, REST]
    split
    · rfl
    · rw [if_pos (h b (List.mem_cons_self _ _))]
      exact ih (fun x hx => h x (List.mem_cons_of_mem _ hx)) _ _ _

theorem varintDecodeAux_encode :
    ∀ n rest shift res counter, 7 * ((varintEncode n).length - 1) + shift ≤ 49 →
      varintDecodeAux ((varintEncode n) ++ rest) shift res counter
        = some (res + n * 2 ^ shift, counter + (varintEncode n).length) := by
  intro n
  induction n using Nat.strong_induction_on with
  | _ n ih =>
    intro rest shift res counter hs
    by_cases h : n < 128
    · rw [varintEncode_lt h] at hs ⊢
      simp only [List.length_cons, List.length_nil] at hs
      simp only [List.cons_append, List.nil_append]
      rw [varintDecodeAux]
      simp only [MSB, REST]
      rw [if_neg (by omega), if_neg (by omega)]
      have hand : n &&& 127 = n := by
        have h7 : n &&& 127 = n % 128 := Nat.and_pow_two_sub_one_eq_mod n 7
        rw [h7, Nat.mod_eq_of_lt h]
      rw [hand]
      simp
    · push_neg at h
      rw [varintEncode_ge h] at hs ⊢
      simp only [List.length_cons] at hs ⊢
      have hlen1 : 0 < (varintEncode (n >>> 7)).length := varintEncode_length_pos _
      simp only [List.cons_append]
      rw [varintDecodeAux]
      simp only [MSB, REST]
      rw [if_neg (by omega), if_pos (encByte_ge n), encByte_and n]
      have hrec : n >>> 7 < n := by
        rw [Nat.shiftRight_eq_div_pow]
        exact Nat.div_lt_self (by omega) (by norm_num)
      rw [ih (n >>> 7) hrec rest (shift + 7)
        (res + (n % 128) * 2 ^ shift) (counter + 1) (by omega)]
      have harith : res + n % 128 * 2 ^ shift + (n >>> 7) * 2 ^ (shift + 7)
          = res + n * 2 ^ shift := by
        rw [Nat.shiftRight_eq_div_pow]
        have h128 : (2:Nat) ^ 7 = 128 := by norm_num
        rw [h128]
        have h2 : n % 128 + 128 * (n / 128) = n := Nat.mod_add_div n 128
        calc res + n % 128 * 2 ^ shift + n / 128 * 2 ^ (shift + 7)
            = res + (n % 128 + 128 * (n / 128)) * 2 ^ shift := by ring
          _ = res + n * 2 ^ shift := by rw [h2]
      simp only [Option.some.injEq, Prod.mk.injEq]
      exact ⟨harith, by omega⟩

theorem varintDecode_encode {n : Nat} (hn : n < 2 ^ 49) (rest : List Nat) :
    varintDecodeAux ((varintEncode n) ++ rest) 0 0 0
      = some (n, (varintEncode n).length) := by
  have hlen : (varintEncode n).length ≤ 7 := by
    apply varintEncode_length_le 6 n
    norm_num
    omega
  have h := varintDecodeAux_encode n rest 0 0 0 (by omega)
  simpa using h

/-! ### Correctness of the frame codec -/

/-- Every byte of a strict prefix of a varint encoding has the
continuation bit set. -/
theorem varintEncode_take_cont :
    ∀ n k, k < (varintEncode n).length → ∀ b ∈ (varintEncode n).take k, 128 ≤ b := by
  intro n
  induction n using Nat.strong_induction_on with
  | _ n ih =>
    intro k hk b hb
    by_cases h : n < 128
    · rw [varintEncode_lt h] at hk hb
      simp only [List.length_cons, List.length_nil] at hk
      have hk0 : k = 0 := by omega
      subst hk0
      simp at hb
    · rw [varintEncode_ge (Nat.not_lt.mp h)] at hk hb
      cases k with
      | zero => simp at hb
      | succ k' =>
        rw [List.take_succ_cons] at hb
        rcases List.mem_cons.mp hb with hb1 | hb2
        · subst hb1; exact encByte_ge n
        · have hrec : n >>> 7 < n := by
            rw [Nat.shiftRight_eq_div_pow]
            exact Nat.div_lt_self (by omega) (by norm_num)
          exact ih (n >>> 7) hrec k' (by simpa using hk) b hb2

/-- Decoding a buffer that starts with a complete well-formed frame yields
that frame and leaves exactly the trailing bytes. -/
theorem tryDecodeMessage_frame {T : Nat} {d : List Nat} (hT : T < 2 ^ 31)
    (hd : d.length ≤ MAX_MESSAGE_SIZE) (rest : List Nat) :
    tryDecodeMessage ((encodeMessage T d) ++ rest)
      = .ok (some ⟨T, d⟩, rest) := by
  have hL49 : d.length < 2 ^ 49 := by
    have : MAX_MESSAGE_SIZE < 2 ^ 49 := by norm_num [MAX_MESSAGE_SIZE]
    omega
  have hT49 : T < 2 ^ 49 := lt_trans hT (by norm_num)
  have heLpos := varintEncode_length_pos d.length
  have heTpos := varintEncode_length_pos T
  have hbuf : (encodeMessage T d) ++ rest
      = 0 :: (varintEncode d.length ++ (varintEncode T ++ (d ++ rest))) := by
    simp [encodeMessage, List.append_assoc]
  have h1 : ∀ W : List Nat,
      (0 :: (varintEncode d.length ++ W)).drop (1 + (varintEncode d.length).length)
        = W := by
    intro W
    rw [show 1 + (varintEncode d.length).length
        = (varintEncode d.length).length + 1 from by omega]
    rw [List.drop_succ_cons]
    exact List.drop_left _ _
  have h2 : (0 :: (varintEncode d.length ++ (varintEncode T ++ (d ++ rest)))).drop
      (1 + (varintEncode d.length).length + (varintEncode T).length)
        = d ++ rest := by
    rw [← List.drop_drop, h1]
    exact List.drop_left _ _
  have h3 : (0 :: (varintEncode d.length ++ (varintEncode T ++ (d ++ rest)))).drop
      (1 + (varintEncode d.length).length + (varintEncode T).length + d.length)
        = rest := by
    rw [← List.drop_drop, h2]
    exact List.drop_left _ _
  have hv1 : varintDecode
      (0 :: (varintEncode d.length ++ (varintEncode T ++ (d ++ rest)))) 1
        = some (d.length, (varintEncode d.length).length) := by
    rw [varintDecode, List.drop_succ_cons, List.drop_zero]
    exact varintDecode_encode hL49 _
  have hv2 : varintDecode
      (0 :: (varintEncode d.length ++ (varintEncode T ++ (d ++ rest))))
      (1 + (varintEncode d.length).length)
        = some (T, (varintEncode T).length) := by
    rw [varintDecode, h1]
    exact varintDecode_encode hT49 _
  rw [hbuf, tryDecodeMessage,
    if_neg (by simp only [List.length_cons, List.length_append]; omega),
    if_pos (show (0 :: (varintEncode d.length ++ (varintEncode T ++ (d ++ rest)))).headD 0
      = 0 from rfl), decodeFromPreamble]
  simp only [hv1]
  rw [if_neg (Nat.not_lt.mpr hd),
    if_neg (by simp only [List.length_cons, List.length_append]; omega)]
  simp only [hv2]
  rw [if_neg (by simp only [List.length_cons, List.length_append]; omega)]
  rw [h2, h3]
  rw [List.take_left]

/-- Feeding any strict prefix of a well-formed frame to the decoder is a
non-fatal wait: it returns `null` and leaves the buffer untouched. -/
theorem tryDecodeMessage_take {T : Nat} {d : List Nat} (hT : T < 2 ^ 31)
    (hd : d.length ≤ MAX_MESSAGE_SIZE) (k : Nat)
    (hk : k < (encodeMessage T d).length) :
    tryDecodeMessage ((encodeMessage T d).take k)
      = .ok (none, (encodeMessage T d).take k) := by
  have hL49 : d.length < 2 ^ 49 := by
    have : MAX_MESSAGE_SIZE < 2 ^ 49 := by norm_num [MAX_MESSAGE_SIZE]
    omega
  have hT49 : T < 2 ^ 49 := lt_trans hT (by norm_num)
  have heLpos := varintEncode_length_pos d.length
  have heTpos := varintEncode_length_pos T
  rw [show encodeMessage T d
      = 0 :: (varintEncode d.length ++ (varintEncode T ++ d)) from rfl] at hk ⊢
  rw [List.length_cons, List.length_append, List.length_append] at hk
  rcases Nat.lt_or_ge k 2 with hk2 | hk2
  · rw [tryDecodeMessage, if_pos (by simp only [List.length_take]; omega)]
  · obtain ⟨j, rfl⟩ : ∃ j, k = j + 1 := ⟨k - 1, by omega⟩
    rw [List.take_succ_cons]
    have hjlen : j < (varintEncode d.length).length
        + ((varintEncode T).length + d.length) := by omega
    rw [tryDecodeMessage,
      if_neg (by simp only [List.length_cons, List.length_take,
        List.length_append]; omega),
      if_pos (show (0 :: ((varintEncode d.length
        ++ (varintEncode T ++ d)).take j)).headD 0 = 0 from rfl),
      decodeFromPreamble]
    rcases Nat.lt_or_ge j (varintEncode d.length).length with hj1 | hj1
    · -- the prefix ends inside the length varint
      have htake : (varintEncode d.length ++ (varintEncode T ++ d)).take j
          = (varintEncode d.length).take j := by
        rw [List.take_append_eq_append_take,
          Nat.sub_eq_zero_of_le (le_of_lt hj1)]
        simp
      rw [htake]
      have hnone : varintDecode (0 :: (varintEncode d.length).take j) 1 = none := by
        rw [varintDecode, List.drop_succ_cons, List.drop_zero]
        exact varintDecodeAux_cont (varintEncode_take_cont _ j hj1) _ _ _
      simp only [hnone]
    · -- the length varint is complete in the prefix
      have htake2 : (varintEncode d.length ++ (varintEncode T ++ d)).take j
          = varintEncode d.length ++ ((varintEncode T ++ d).take
              (j - (varintEncode d.length).length)) := by
        rw [List.take_append_eq_append_take, List.take_of_length_le hj1]
      rw [htake2]
      have hv1 : varintDecode (0 :: (varintEncode d.length
          ++ ((varintEncode T ++ d).take (j - (varintEncode d.length).length)))) 1
            = some (d.length, (varintEncode d.length).length) := by
        rw [varintDecode, List.drop_succ_cons, List.drop_zero]
        exact varintDecode_encode hL49 _
      simp only [hv1]
      rw [if_neg (Nat.not_lt.mpr hd)]
      have hdrop : (0 :: (varintEncode d.length
          ++ ((varintEncode T ++ d).take (j - (varintEncode d.length).length)))).drop
            (1 + (varintEncode d.length).length)
          = (varintEncode T ++ d).take (j - (varintEncode d.length).length) := by
        rw [show 1 + (varintEncode d.length).length
            = (varintEncode d.length).length + 1 from by omega]
        rw [List.drop_succ_cons]
        exact List.drop_left _ _
      by_cases hm0 : j - (varintEncode d.length).length = 0
      · -- the prefix is exactly preamble + length varint
        rw [if_pos (by simp only [hm0, List.length_cons, List.length_append,
          List.take_zero, List.length_nil]; omega)]
      · rw [if_neg (by simp only [List.length_cons, List.length_append,
          List.length_take]; omega)]
        rcases Nat.lt_or_ge (j - (varintEncode d.length).length)
            (varintEncode T).length with hm1 | hm1
        · -- the prefix ends inside the type varint
          have htake3 : (varintEncode T ++ d).take
              (j - (varintEncode d.length).length)
                = (varintEncode T).take (j - (varintEncode d.length).length) := by
            rw [List.take_append_eq_append_take,
              Nat.sub_eq_zero_of_le (le_of_lt hm1)]
            simp
          have hnone2 : varintDecode (0 :: (varintEncode d.length
              ++ ((varintEncode T ++ d).take (j - (varintEncode d.length).length))))
              (1 + (varintEncode d.length).length) = none := by
            rw [varintDecode, hdrop, htake3]
            exact varintDecodeAux_cont (varintEncode_take_cont _ _ hm1) _ _ _
          simp only [hnone2]
        · -- the type varint is complete; the payload is truncated
          have htake4 : (varintEncode T ++ d).take
              (j - (varintEncode d.length).length)
                = varintEncode T ++ (d.take
                    (j - (varintEncode d.length).length - (varintEncode T).length)) := by
            rw [List.take_append_eq_append_take, List.take_of_length_le hm1]
          have hv2 : varintDecode (0 :: (varintEncode d.length
              ++ ((varintEncode T ++ d).take (j - (varintEncode d.length).length))))
              (1 + (varintEncode d.length).length)
                = some (T, (varintEncode T).length) := by
            rw [varintDecode, hdrop, htake4]
            exact varintDecode_encode hT49 _
          simp only [hv2]
          rw [if_pos (by simp only [List.length_cons, List.length_append,
            List.length_take]; omega)]

/-! ### The decode loop on streams of frames -/

theorem addDataGo_nil : addDataGo [] = .ok ([], []) := by
  rw [addDataGo]
  simp

theorem addDataGo_pending {buffer buf' : List Nat}
    (hne : buffer ≠ []) (h : tryDecodeMessage buffer = .ok (none, buf')) :
    addDataGo buffer = .ok ([], buf') := by
  rw [addDataGo, dif_neg (by simpa using hne)]
  split
  · rename_i e heq
    rw [h] at heq; cases heq
  · rename_i buf2 heq
    rw [h] at heq
    simp only [Except.ok.injEq, Prod.mk.injEq] at heq
    rw [heq.2]
  · rename_i m buf2 heq
    rw [h] at heq
    simp at heq

theorem addDataGo_message {buffer buf' : List Nat} {m : DecodedMessage}
    (h : tryDecodeMessage buffer = .ok (some m, buf')) :
    addDataGo buffer = (match addDataGo buf' with
      | .error e => .error e
      | .ok (ms, bfin) => .ok (m :: ms, bfin)) := by
  have hne : ¬ buffer.length = 0 := by
    have := tryDecodeMessage_some_length h
    omega
  rw [addDataGo, dif_neg hne]
  split
  · rename_i e heq
    rw [h] at heq; cases heq
  · rename_i buf2 heq
    rw [h] at heq
    simp at heq
  · rename_i m2 buf2 heq
    rw [h] at heq
    simp only [Except.ok.injEq, Prod.mk.injEq, Option.some.injEq] at heq
    obtain ⟨h1, h2⟩ := heq
    subst h1
    subst h2
    rfl

theorem encodeMessage_length_ge (T : Nat) (d : List Nat) :
    3 ≤ (encodeMessage T d).length := by
  have h1 := varintEncode_length_pos d.length
  have h2 := varintEncode_length_pos T
  simp only [encodeMessage, List.length_cons, List.length_append]
  omega

theorem encodeFrames_append (a b : List DecodedMessage) :
    encodeFrames (a ++ b) = encodeFrames a ++ encodeFrames b := by
  induction a with
  | nil => rfl
  | cons f a ih => simp [encodeFrames, ih, List.append_assoc]

/-- Running the decode loop on any prefix `P` of an encoded stream emits
exactly the frames whose encodings lie entirely inside `P` and retains the
strict-prefix remainder of the next frame in the buffer. -/
theorem addDataGo_stream :
    ∀ fs : List DecodedMessage, (∀ m ∈ fs, ValidMsg m) →
    ∀ P Q : List Nat, P ++ Q = encodeFrames fs →
    ∃ fsa fsb B, fs = fsa ++ fsb ∧ P = encodeFrames fsa ++ B ∧
      addDataGo P = .ok (fsa, B) ∧
      (B = [] ∨ ∃ f fsb', fsb = f :: fsb' ∧
        B.length < (encodeMessage f.type f.data).length) := by
  intro fs
  induction fs with
  | nil =>
    intro _ P Q hPQ
    obtain ⟨hP, -⟩ := List.append_eq_nil.mp hPQ
    subst hP
    exact ⟨[], [], [], rfl, rfl, addDataGo_nil, Or.inl rfl⟩
  | cons f rest ih =>
    intro hv P Q hPQ
    have hvf : ValidMsg f := hv f (List.mem_cons_self _ _)
    have hPQ2 : P ++ Q = encodeMessage f.type f.data ++ encodeFrames rest := hPQ
    rcases Nat.lt_or_ge P.length (encodeMessage f.type f.data).length with hlt | hge
    · -- P is a strict prefix of the first frame
      have hPfx : P = (encodeMessage f.type f.data).take P.length := by
        calc P = (P ++ Q).take P.length := (List.take_left _ _).symm
          _ = (encodeMessage f.type f.data ++ encodeFrames rest).take P.length := by
              rw [hPQ2]
          _ = (encodeMessage f.type f.data).take P.length := by
              rw [List.take_append_eq_append_take,
                Nat.sub_eq_zero_of_le (le_of_lt hlt)]
              simp
      obtain ⟨k, hklt, hPk⟩ : ∃ k, k < (encodeMessage f.type f.data).length ∧
          P = (encodeMessage f.type f.data).take k := ⟨P.length, hlt, hPfx⟩
      subst hPk
      by_cases hP0 : (encodeMessage f.type f.data).take k = []
      · rw [hP0]
        exact ⟨[], f :: rest, [], rfl, rfl, addDataGo_nil, Or.inl rfl⟩
      · refine ⟨[], f :: rest, (encodeMessage f.type f.data).take k, rfl, rfl,
          addDataGo_pending hP0 (tryDecodeMessage_take hvf.1 hvf.2 k hklt), ?_⟩
        refine Or.inr ⟨f, rest, rfl, ?_⟩
        simp only [List.length_take]
        omega
    · -- the first frame is complete inside P
      have ht : P.take (encodeMessage f.type f.data).length
          = encodeMessage f.type f.data := by
        calc P.take (encodeMessage f.type f.data).length
            = (P ++ Q).take (encodeMessage f.type f.data).length := by
              rw [List.take_append_eq_append_take,
                Nat.sub_eq_zero_of_le hge]
              simp
          _ = (encodeMessage f.type f.data
              ++ encodeFrames rest).take (encodeMessage f.type f.data).length := by
              rw [hPQ2]
          _ = encodeMessage f.type f.data := by
              rw [List.take_append_eq_append_take, List.take_length]
              simp
      obtain ⟨P', hsplit⟩ : ∃ P', P = encodeMessage f.type f.data ++ P' := by
        refine ⟨P.drop (encodeMessage f.type f.data).length, ?_⟩
        conv_lhs => rw [← List.take_append_drop (encodeMessage f.type f.data).length P]
        rw [ht]
      have hPQ' : P' ++ Q = encodeFrames rest := by
        have h : encodeMessage f.type f.data ++ (P' ++ Q)
            = encodeMessage f.type f.data ++ encodeFrames rest := by
          rw [← List.append_assoc, ← hsplit, hPQ2]
        exact List.append_cancel_left h
      obtain ⟨fsa', fsb', B, hfs, hPa, hgo, hprop⟩ :=
        ih (fun m hm => hv m (List.mem_cons_of_mem _ hm)) P' Q hPQ'
      refine ⟨f :: fsa', fsb', B, by rw [List.cons_append, ← hfs], ?_, ?_, hprop⟩
      · rw [hsplit, hPa]
        simp [encodeFrames, List.append_assoc]
      · have htd : tryDecodeMessage P = .ok (some f, P') := by
          rw [hsplit]
          have h := tryDecodeMessage_frame hvf.1 hvf.2 P'
          simpa using h
        rw [addDataGo_message htd, hgo]

/-- Feeding chunk by chunk from a buffer that holds at most a strict prefix
of the next frame decodes the whole remaining stream. -/
theorem feedChunks_stream :
    ∀ (cs : List (List Nat)) (fs : List DecodedMessage) (B : List Nat),
      (∀ m ∈ fs, ValidMsg m) →
      B ++ flattenChunks cs = encodeFrames fs →
      (B = [] ∨ ∃ f fsb', fs = f :: fsb' ∧
        B.length < (encodeMessage f.type f.data).length) →
      feedChunks B cs = .ok (fs, []) := by
  intro cs
  induction cs with
  | nil =>
    intro fs B hv hflat hprop
    rw [show flattenChunks [] = [] from rfl, List.append_nil] at hflat
    rcases hprop with hB | ⟨f, fsb', hfs, hlen⟩
    · subst hB
      have hfs0 : fs = [] := by
        cases fs with
        | nil => rfl
        | cons f fs' =>
          exfalso
          have h3 := encodeMessage_length_ge f.type f.data
          have hl := congrArg List.length hflat
          simp only [encodeFrames, List.length_nil, List.length_append] at hl
          omega
      subst hfs0
      rfl
    · exfalso
      subst hfs
      have hl := congrArg List.length hflat
      simp only [encodeFrames, List.length_append] at hl
      omega
  | cons c cs' ih =>
    intro fs B hv hflat hprop
    have hpre : (B ++ c) ++ flattenChunks cs' = encodeFrames fs := by
      rw [List.append_assoc]
      exact hflat
    obtain ⟨fsa, fsb, B', hfs, hBc, hgo, hprop'⟩ :=
      addDataGo_stream fs hv (B ++ c) (flattenChunks cs') hpre
    have hflat' : B' ++ flattenChunks cs' = encodeFrames fsb := by
      have h1 : encodeFrames fsa ++ (B' ++ flattenChunks cs')
          = encodeFrames fsa ++ encodeFrames fsb := by
        rw [← List.append_assoc, ← hBc, hpre, hfs, encodeFrames_append]
      exact List.append_cancel_left h1
    have hv' : ∀ m ∈ fsb, ValidMsg m := by
      intro m hm
      exact hv m (by rw [hfs]; exact List.mem_append_right _ hm)
    simp only [feedChunks, addData]
    rw [hgo]
    simp only [ih fsb B' hv' hflat' hprop']
    rw [hfs]

/-- Feeding the whole stream in any chunking decodes exactly the encoded
frames, ending with an empty buffer. -/
theorem feedChunks_complete (fs : List DecodedMessage) (cs : List (List Nat))
    (hv : ∀ m ∈ fs, ValidMsg m) (hcs : flattenChunks cs = encodeFrames fs) :
    feedChunks [] cs = .ok (fs, []) := by
  apply feedChunks_stream cs fs [] hv (by simpa using hcs) (Or.inl rfl)

theorem addDataGo_error {buffer : List Nat} {e : String}
    (hne : buffer ≠ []) (h : tryDecodeMessage buffer = .error e) :
    addDataGo buffer = .error e := by
  rw [addDataGo, dif_neg (by simpa using hne)]
  split
  · rename_i e2 heq
    rw [h] at heq
    injection heq with h2
    rw [h2]
  · rename_i buf2 heq
    rw [h] at heq
    cases heq
  · rename_i m buf2 heq
    rw [h] at heq
    cases heq

/-- A frame header that declares a payload longer than the 1 MiB cap makes
the decoder throw the `Message too large` protocol fault. -/
theorem tryDecodeMessage_too_large {L : Nat} (hL : MAX_MESSAGE_SIZE < L)
    (hL49 : L < 2 ^ 49) (rest : List Nat) :
    tryDecodeMessage (0 :: (varintEncode L ++ rest))
      = .error ("Message too large: " ++ (toString L) ++ " bytes") := by
  have hpos := varintEncode_length_pos L
  rw [tryDecodeMessage,
    if_neg (by simp only [List.length_cons, List.length_append]; omega),
    if_pos (show (0 :: (varintEncode L ++ rest)).headD 0 = 0 from rfl),
    decodeFromPreamble]
  have hv : varintDecode (0 :: (varintEncode L ++ rest)) 1
      = some (L, (varintEncode L).length) := by
    rw [varintDecode, List.drop_succ_cons, List.drop_zero]
    exact varintDecode_encode hL49 _
  simp only [hv]
  rw [if_pos hL]

/-! ### Claim theorems -/

/-- C1: for every message type `T` (all `MessageType` values are below
`2^31`) and every payload of at most 1 MiB, feeding the output of
`ProtocolHandler.encodeMessage(T, payload)` to a fresh handler's `addData`
yields exactly the one-element list `[(T, payload)]` and leaves the
internal buffer empty. -/
theorem claim1_encode_decode_roundtrip (T : Nat) (d : List Nat)
    (hT : T < 2 ^ 31) (hd : d.length ≤ MAX_MESSAGE_SIZE) :
    addData [] (encodeMessage T d) = .ok ([⟨T, d⟩], []) := by
  rw [addData, List.nil_append]
  have htd : tryDecodeMessage (encodeMessage T d) = .ok (some ⟨T, d⟩, []) := by
    have h := tryDecodeMessage_frame hT hd []
    simpa using h
  rw [addDataGo_message htd, addDataGo_nil]

theorem claim1_encode_decode_roundtrip_witness :
    (7 : Nat) < 2 ^ 31 ∧ ([] : List Nat).length ≤ MAX_MESSAGE_SIZE ∧
    addData [] (encodeMessage 7 []) = .ok ([⟨7, []⟩], []) :=
  ⟨by norm_num, by simp [MAX_MESSAGE_SIZE],
   claim1_encode_decode_roundtrip 7 [] (by norm_num) (by simp [MAX_MESSAGE_SIZE])⟩

/-- C2: feeding any partition of a stream of valid encoded frames chunk by
chunk to one `ProtocolHandler` produces, in concatenation, the same ordered
frame list as feeding the whole stream in a single `addData` call. -/
theorem claim2_streaming_equivalence (fs : List DecodedMessage)
    (cs : List (List Nat)) (hv : ∀ m ∈ fs, ValidMsg m)
    (hcs : flattenChunks cs = encodeFrames fs) :
    feedChunks [] cs = feedChunks [] [flattenChunks cs] := by
  rw [feedChunks_complete fs cs hv hcs,
    feedChunks_complete fs [flattenChunks cs] hv
      (by simp [flattenChunks, hcs])]

theorem claim2_streaming_equivalence_witness :
    (∀ m ∈ [(⟨10, [222, 173]⟩ : DecodedMessage)], ValidMsg m) ∧
    flattenChunks [[0, 2, 10], [222], [173]]
      = encodeFrames [(⟨10, [222, 173]⟩ : DecodedMessage)] ∧
    feedChunks [] [[0, 2, 10], [222], [173]]
      = feedChunks [] [flattenChunks [[0, 2, 10], [222], [173]]] := by
  have h1 : ∀ m ∈ [(⟨10, [222, 173]⟩ : DecodedMessage)], ValidMsg m := by decide
  have h2 : flattenChunks [[0, 2, 10], [222], [173]]
      = encodeFrames [(⟨10, [222, 173]⟩ : DecodedMessage)] := by
    simp [flattenChunks, encodeFrames, encodeMessage, varintEncode]
  exact ⟨h1, h2, claim2_streaming_equivalence _ _ h1 h2⟩

/-- C3 counterexample: a buffer whose length varint consists of ten
continuation bytes (`0xFF`) — a malformed varint — is NOT treated as a
protocol fault: `tryDecodeMessage` returns the non-fatal wait-for-more-data
signal (`null`) and leaves the buffer unchanged, contradicting the claim
that the condition is fatal. -/
theorem claim3_counterexample :
    tryDecodeMessage (0 :: List.replicate 10 255)
      = .ok (none, 0 :: List.replicate 10 255) := by
  rfl

/-- C3 amended: a malformed continuation-byte varint (ten or more bytes
with the continuation bit never cleared), whether it sits in the LENGTH
position (`lengthPart = []`: the bytes right after the preamble never
terminate) or in the TYPE position (`lengthPart` a valid length varint
for an in-cap length, followed by the non-terminating bytes), is treated
by the decoder as a NON-fatal wait-for-more-data condition — the
`RangeError` thrown by `varint.decode` is caught and mapped to
`return null`, the buffer is kept unchanged, and no protocol fault is
raised. -/
theorem claim3_amended (lengthPart tail : List Nat)
    (hcase : lengthPart = []
      ∨ ∃ L, L ≤ MAX_MESSAGE_SIZE ∧ lengthPart = varintEncode L)
    (h10 : 10 ≤ tail.length) (hcont : ∀ b ∈ tail, 128 ≤ b) :
    tryDecodeMessage (0 :: (lengthPart ++ tail))
      = .ok (none, 0 :: (lengthPart ++ tail)) := by
  rcases hcase with hnil | ⟨L, hL, hLenc⟩
  · -- the length varint itself is malformed
    subst hnil
    rw [List.nil_append, tryDecodeMessage,
      if_neg (by simp only [List.length_cons]; omega),
      if_pos (show (0 :: tail).headD 0 = 0 from rfl),
      decodeFromPreamble]
    have hnone : varintDecode (0 :: tail) 1 = none := by
      rw [varintDecode, List.drop_succ_cons, List.drop_zero]
      exact varintDecodeAux_cont hcont _ _ _
    simp only [hnone]
  · -- the length varint is valid and within the cap; the type varint is
    -- malformed
    subst hLenc
    have hL49 : L < 2 ^ 49 := by
      have : MAX_MESSAGE_SIZE < 2 ^ 49 := by norm_num [MAX_MESSAGE_SIZE]
      omega
    have hpos := varintEncode_length_pos L
    rw [tryDecodeMessage,
      if_neg (by simp only [List.length_cons, List.length_append]; omega),
      if_pos (show (0 :: (varintEncode L ++ tail)).headD 0 = 0 from rfl),
      decodeFromPreamble]
    have hv1 : varintDecode (0 :: (varintEncode L ++ tail)) 1
        = some (L, (varintEncode L).length) := by
      rw [varintDecode, List.drop_succ_cons, List.drop_zero]
      exact varintDecode_encode hL49 _
    simp only [hv1]
    rw [if_neg (Nat.not_lt.mpr hL),
      if_neg (by simp only [List.length_cons, List.length_append]; omega)]
    have hdrop : (0 :: (varintEncode L ++ tail)).drop
        (1 + (varintEncode L).length) = tail := by
      rw [show 1 + (varintEncode L).length
          = (varintEncode L).length + 1 from by omega]
      rw [List.drop_succ_cons]
      exact List.drop_left _ _
    have hnone2 : varintDecode (0 :: (varintEncode L ++ tail))
        (1 + (varintEncode L).length) = none := by
      rw [varintDecode, hdrop]
      exact varintDecodeAux_cont hcont _ _ _
    simp only [hnone2]

theorem claim3_amended_witness :
    10 ≤ (List.replicate 10 (255 : Nat)).length ∧
    (5 : Nat) ≤ MAX_MESSAGE_SIZE ∧
    tryDecodeMessage (0 :: ([] ++ List.replicate 10 (255 : Nat)))
      = .ok (none, 0 :: ([] ++ List.replicate 10 (255 : Nat))) ∧
    tryDecodeMessage (0 :: (varintEncode 5 ++ List.replicate 10 (255 : Nat)))
      = .ok (none, 0 :: (varintEncode 5 ++ List.replicate 10 (255 : Nat))) :=
  ⟨by simp, by norm_num [MAX_MESSAGE_SIZE],
   claim3_amended [] _ (Or.inl rfl) (by simp)
     (by intro b hb; rw [List.eq_of_mem_replicate hb]; omega),
   claim3_amended (varintEncode 5) _
     (Or.inr ⟨5, by norm_num [MAX_MESSAGE_SIZE], rfl⟩) (by simp)
     (by intro b hb; rw [List.eq_of_mem_replicate hb]; omega)⟩

/-- C4 counterexample: on a connected but NOT authenticated connection,
`sendMessage` with the non-handshake type `SubscribeStatesRequest` (20)
succeeds and writes the frame `[0x00, 0x00, 0x14]` to the socket — it does
not fail with `NotConnected` or `AuthenticationRequired` as the claim
asserts. -/
theorem claim4_counterexample :
    (sendMessage ⟨⟨true, false, none, none⟩, [], true, false, false, true⟩
        SubscribeStatesRequestType [] = .ok [0, 0, 20]) ∧
    (⟨⟨true, false, none, none⟩, [], true, false, false, true⟩ :
        Conn).state.authenticated = false := by
  constructor
  · rw [sendMessage]
    simp [encodeMessage, varintEncode, SubscribeStatesRequestType]
  · rfl

/-- C4 amended: `Connection.sendMessage` never consults the
`authenticated` flag or the message type — it fails, with `NotConnected`,
exactly when there is no socket or the state is not connected, and writes
nothing in that case; whenever the connection is connected it succeeds and
writes the encoded frame, authenticated or not. -/
theorem claim4_amended (c : Conn) (type : Nat) (data : List Nat) :
    (sendMessage c type data = .error ("Not connected")
      ↔ (c.socketOpen = false ∨ c.state.connected = false)) ∧
    (c.socketOpen = true → c.state.connected = true →
      sendMessage c type data = .ok (encodeMessage type data)) := by
  cases hso : c.socketOpen <;> cases hcn : c.state.connected <;>
    simp [sendMessage, hso, hcn]

theorem claim4_amended_witness :
    ((sendMessage ⟨⟨false, false, none, none⟩, [], false, false, false, true⟩
        SubscribeStatesRequestType [] = .error ("Not connected"))
      ↔ (false = false ∨ false = false)) ∧
    sendMessage ⟨⟨true, true, none, none⟩, [], true, false, false, true⟩
        SubscribeStatesRequestType []
      = .ok (encodeMessage SubscribeStatesRequestType []) :=
  ⟨(claim4_amended ⟨⟨false, false, none, none⟩, [], false, false, false, true⟩
      SubscribeStatesRequestType []).1,
   (claim4_amended ⟨⟨true, true, none, none⟩, [], true, false, false, true⟩
      SubscribeStatesRequestType []).2 rfl rfl⟩

/-- C5: a frame header declaring a payload length `L` over the 1 MiB cap
makes the decoder throw `MessageTooLarge`, and the fault is fatal: the
socket `data` handler emits it on the `error` channel and then runs
`disconnect()` (so the connection ends disconnected and a `disconnect`
event follows the `error` event). -/
theorem claim5_message_too_large (c : Conn) (hbuf : c.buffer = [])
    (L : Nat) (rest : List Nat) (hL : MAX_MESSAGE_SIZE < L)
    (hL31 : L < 2 ^ 31) :
    onData c (0 :: (varintEncode L ++ rest))
      = ((disconnect c).1,
         Event.errorEv ("Message too large: " ++ (toString L) ++ " bytes")
           :: (disconnect c).2,
         []) ∧
    (disconnect c).1.state.connected = false ∧
    Event.disconnectEv ∈ (disconnect c).2 := by
  have hL49 : L < 2 ^ 49 := lt_trans hL31 (by norm_num)
  have herr : addData c.buffer (0 :: (varintEncode L ++ rest))
      = .error ("Message too large: " ++ (toString L) ++ " bytes") := by
    rw [hbuf, addData, List.nil_append]
    exact addDataGo_error (by simp) (tryDecodeMessage_too_large hL hL49 rest)
  constructor
  · rw [onData, herr]
  · constructor
    · simp [disconnect, cleanup, updateState, applyPatch]
    · simp [disconnect]

theorem claim5_message_too_large_witness :
    MAX_MESSAGE_SIZE < 1048577 ∧ 1048577 < 2 ^ 31 ∧
    (onData ⟨⟨true, false, none, none⟩, [], true, false, false, true⟩
        (0 :: (varintEncode 1048577 ++ []))
      = ((disconnect ⟨⟨true, false, none, none⟩, [], true, false, false, true⟩).1,
         Event.errorEv ("Message too large: " ++ (toString 1048577) ++ " bytes")
           :: (disconnect ⟨⟨true, false, none, none⟩, [], true, false, false,
                true⟩).2,
         []) ∧
     (disconnect ⟨⟨true, false, none, none⟩, [], true, false, false,
        true⟩).1.state.connected = false ∧
     Event.disconnectEv ∈ (disconnect ⟨⟨true, false, none, none⟩, [], true,
        false, false, true⟩).2) :=
  ⟨by norm_num [MAX_MESSAGE_SIZE], by norm_num,
   claim5_message_too_large _ rfl 1048577 [] (by norm_num [MAX_MESSAGE_SIZE])
     (by norm_num)⟩

/-- C6 counterexample: after a single successful connect (exactly one
`connect` event), calling `disconnect()` twice emits TWO `disconnect`
events — `disconnect()` emits unconditionally on every call, so "at most
one `disconnect` event per `connected` event" fails. -/
theorem claim6_counterexample :
    (onSocketConnect ⟨⟨false, false, none, none⟩, [], false, false, false,
        true⟩).2.count Event.connectEv = 1 ∧
    ((disconnect (onSocketConnect ⟨⟨false, false, none, none⟩, [], false,
        false, false, true⟩).1).2
      ++ (disconnect (disconnect (onSocketConnect ⟨⟨false, false, none,
            none⟩, [], false, false, false, true⟩).1).1).2).count
        Event.disconnectEv = 2 := by
  decide

/-- C6 amended: calling `disconnect()` twice is safe — it never throws, the
second call leaves the connection state unchanged and emits no
`stateChange` — but every call, including one on an already-disconnected
connection, emits exactly one `disconnect` event.  (Only the socket-close
path `handleDisconnect` guards the `disconnect` event with the previous
`connected` flag.) -/
theorem claim6_amended (c : Conn) :
    (disconnect c).2.count Event.disconnectEv = 1 ∧
    (disconnect (disconnect c).1).1 = (disconnect c).1 ∧
    (disconnect (disconnect c).1).2 = [Event.disconnectEv] ∧
    (handleDisconnect (disconnect c).1).2.count Event.disconnectEv = 0 := by
  refine ⟨?_, ?_, ?_, ?_⟩
  · rw [disconnect]
    simp only [updateState, List.count_append]
    split <;> simp
  · simp [disconnect, cleanup, updateState, applyPatch]
  · simp [disconnect, cleanup, updateState, applyPatch]
  · simp [disconnect, handleDisconnect, cleanup, updateState, applyPatch]

/-- C7: an inbound `PingRequest` on a connected socket is answered
immediately with a `PingResponse` frame and produces NO `message` event,
so it never reaches the client facade. -/
theorem claim7_ping_request (c : Conn) (d : List Nat)
    (hso : c.socketOpen = true) (hcn : c.state.connected = true) :
    handleMessage c ⟨PingRequestType, d⟩
      = .ok (c, [], [encodeMessage PingResponseType []]) := by
  rw [handleMessage]
  simp [sendMessage, hso, hcn]

theorem claim7_ping_request_witness :
    handleMessage ⟨⟨true, true, none, none⟩, [], true, false, false, true⟩
        ⟨PingRequestType, [1, 2]⟩
      = .ok (⟨⟨true, true, none, none⟩, [], true, false, false, true⟩, [],
          [encodeMessage PingResponseType []]) :=
  claim7_ping_request ⟨⟨true, true, none, none⟩, [], true, false, false,
    true⟩ [1, 2] rfl rfl

/-- C8 counterexample: with the reconnect policy enabled and every attempt
failing, `connect()` makes FOUR attempts before rejecting (`p-retry` with
`retries: 3` means one initial attempt plus three retries), not at most
three as the claim states. -/
theorem claim8_counterexample :
    connectAttempts true (fun _ => false) = (4, false) := by
  rfl

/-- C8 amended: with the reconnect policy enabled, `connect()` makes at
most FOUR attempts (one initial plus `retries: 3`), with exponential
backoff delays 1 s, 2 s, 4 s from `minTimeout: 1000` doubling under the
`maxTimeout: 5000` cap, and rejects after the fourth failure; with the
policy disabled it makes exactly one attempt. -/
theorem claim8_amended (succeeds : Nat → Bool) :
    (connectAttempts true succeeds).1 ≤ 4 ∧
    (connectAttempts false succeeds).1 = 1 ∧
    ((∀ i, succeeds i = false) → connectAttempts true succeeds = (4, false)) ∧
    [retryDelay 0, retryDelay 1, retryDelay 2] = [1000, 2000, 4000] := by
  have hgen : ∀ r i, (pRetryRun succeeds i r).1 ≤ i + r + 1 := by
    intro r
    induction r with
    | zero => intro i; simp [pRetryRun]
    | succ r ih =>
      intro i
      rw [pRetryRun]
      split
      · simp
      · have := ih (i + 1)
        omega
  refine ⟨?_, ?_, ?_, by decide⟩
  · have := hgen 3 0
    simpa [connectAttempts] using this
  · simp [connectAttempts, pRetryRun]
  · intro hall
    simp [connectAttempts, pRetryRun, hall]

theorem claim8_amended_witness :
    (connectAttempts true (fun _ => false)).1 ≤ 4 ∧
    connectAttempts true (fun _ => false) = (4, false) ∧
    (connectAttempts false (fun _ => false)).1 = 1 :=
  ⟨(claim8_amended (fun _ => false)).1,
   (claim8_amended (fun _ => false)).2.2.1 (fun _ => rfl),
   (claim8_amended (fun _ => false)).2.1⟩

/-- C9: every state-mutating operation (the connect transition, the
disconnect transition, `setAuthenticated`, `setApiVersion`,
`setServerInfo`) routes through `updateState`, which emits a `stateChange`
event exactly when the merged `ConnectionState` differs from the previous
one in at least one field, and emits nothing when the state is
identical. -/
theorem claim9_stateChange_iff (op : StateOp) (s : ConnectionState) :
    ((updateState s (opPatch op)).2
        = [Event.stateChangeEv (applyPatch s (opPatch op))]
      ↔ ((applyPatch s (opPatch op)).connected ≠ s.connected
        ∨ (applyPatch s (opPatch op)).authenticated ≠ s.authenticated
        ∨ (applyPatch s (opPatch op)).apiVersion ≠ s.apiVersion
        ∨ (applyPatch s (opPatch op)).serverInfo ≠ s.serverInfo)) ∧
    ((updateState s (opPatch op)).2 = [] ↔ applyPatch s (opPatch op) = s) := by
  by_cases h : applyPatch s (opPatch op) = s
  · rw [h]
    simp [updateState, h]
  · have hdiff : (applyPatch s (opPatch op)).connected ≠ s.connected
        ∨ (applyPatch s (opPatch op)).authenticated ≠ s.authenticated
        ∨ (applyPatch s (opPatch op)).apiVersion ≠ s.apiVersion
        ∨ (applyPatch s (opPatch op)).serverInfo ≠ s.serverInfo := by
      by_contra hno
      push_neg at hno
      exact h (ConnectionState.ext hno.1 hno.2.1 hno.2.2.1 hno.2.2.2)
    simp [updateState, h, hdiff]

/-- C10: `ESPHomeClient.encodeMessage` is total — an unknown message-type
name and a thrown encoder error both produce an empty buffer rather than an
exception — and its result is otherwise a successful encoding; hence
`switchCommand` on a table with no `SwitchCommandRequest` encoder still
transmits a frame whose payload is empty. -/
theorem claim10_encode_never_throws {α : Type} (table : ProtoTable α)
    (type : String) (data : α) (c : Conn) :
    (table type = none → clientEncodeMessage table type data = []) ∧
    (∀ enc e, table type = some enc → enc data = .error e →
      clientEncodeMessage table type data = []) ∧
    (clientEncodeMessage table type data = [] ∨
      ∃ enc, table type = some enc ∧
        enc data = .ok (clientEncodeMessage table type data)) ∧
    (table ("SwitchCommandRequest") = none → c.socketOpen = true →
      c.state.connected = true →
      switchCommand table c data
        = .ok (encodeMessage SwitchCommandRequestType [])) := by
  refine ⟨?_, ?_, ?_, ?_⟩
  · intro h
    simp [clientEncodeMessage, h]
  · intro enc e h he
    simp [clientEncodeMessage, h, he]
  · rw [clientEncodeMessage]
    split
    · exact Or.inl rfl
    · rename_i enc h
      split
      · rename_i bytes hb
        exact Or.inr ⟨enc, h, by rw [hb]⟩
      · exact Or.inl rfl
  · intro h hso hcn
    rw [switchCommand]
    simp [clientEncodeMessage, h, sendMessage, hso, hcn]

theorem claim10_encode_never_throws_witness :
    clientEncodeMessage (fun _ => none : ProtoTable Unit)
      ("SwitchCommandRequest") () = [] ∧
    switchCommand (fun _ => none : ProtoTable Unit)
        ⟨⟨true, false, none, none⟩, [], true, false, false, true⟩ ()
      = .ok (encodeMessage SwitchCommandRequestType []) :=
  ⟨(claim10_encode_never_throws (fun _ => none) ("SwitchCommandRequest") ()
      ⟨⟨true, false, none, none⟩, [], true, false, false, true⟩).1 rfl,
   (claim10_encode_never_throws (fun _ => none) ("SwitchCommandRequest") ()
      ⟨⟨true, false, none, none⟩, [], true, false, false, true⟩).2.2.2
     rfl rfl rfl⟩

end ESPHome
